import Mathlib

/-!
Verification of the maec processing-graph kernel against its specification.

The C++ sources embedded here are: module_mixer.cpp (ModuleMixDown,
ModuleMixUp), the AudioModule method bodies (set_buffer, get_buffer,
create_buffer, set_forward, bind), fund_oscillator.cpp (SineOscillator), and
meta_audio.hpp (Counter, LatencyModule). Samples are embedded as exact
rationals; the claims treated here are exact-value claims (allocation sizes,
copies, sums of equal summands, step values), so the rational embedding is
faithful. Components whose code is not in the sources (AudioBuffer
construction, the envelope classes, the LatencyModule meta_process body) are
modelled from the specification and carry a doc comment saying so.
-/

namespace Maec

/-- Samples: the code computes in long double; embedded as exact rationals. -/
abbrev Sample := ℚ

/-- The per-module descriptor info read by create_buffer: block size
(out_buffer) and channel count, synchronised along the chain. -/
structure ModuleInfo where
  out_buffer : Nat
  channels : Nat
deriving DecidableEq, Repr

/-- Modelled from the spec: the AudioBuffer class (audio_buffer.hpp is not in
the sources) owns a contiguous set of samples organised as C channels times F
frames; both views address exactly C times F cells. -/
structure AudioBuffer where
  frames : Nat
  channels : Nat
  data : List Sample
deriving DecidableEq, Repr

/-- size(): the number of cells of the underlying container. -/
def AudioBuffer.size (b : AudioBuffer) : Nat := b.data.length

/-- Modelled from the spec: the AudioBuffer constructor AudioBuffer(size,
channels) allocates zero-initialised storage of C times F cells (spec 4.2). -/
def AudioBuffer.make (size channels : Nat) : AudioBuffer :=
  { frames := size, channels := channels,
    data := List.replicate (size * channels) 0 }

/-- AudioModule::create_buffer(int channels) (audio_module.cpp): allocates a
new AudioBuffer sized from the module descriptor info, that is
AudioBuffer(info.out_buffer, channels). -/
def create_buffer (info : ModuleInfo) (channels : Nat) : AudioBuffer :=
  AudioBuffer.make info.out_buffer channels

/-- The no-argument call create_buffer(). The default value of the channel
argument lives in the missing header; Modelled from the spec: blocks are
sized from the shared descriptor (spec 4.2 create_from), so the default is
the descriptor channel count. -/
def create_buffer_default (info : ModuleInfo) : AudioBuffer :=
  create_buffer info info.channels

/-- The AudioModule node state (audio_module.cpp): identity of the object,
backward and forward links (object identities), the shared chain descriptor
reference, the descriptor info, and the held block. -/
structure AudioModule where
  id : Nat
  backward : Option Nat
  forward : Option Nat
  chain : Nat
  info : ModuleInfo
  buff : Option AudioBuffer
deriving DecidableEq, Repr

/-- AudioModule::set_buffer (audio_module.cpp): installs the given block as
the held block. -/
def AudioModule.set_buffer (m : AudioModule) (inbuff : AudioBuffer) : AudioModule :=
  { m with buff := some inbuff }

/-- AudioModule::get_buffer (audio_module.cpp): returns std::move(this.buff);
the moved-from unique_ptr is left null, so the module holds nothing after. -/
def AudioModule.get_buffer (m : AudioModule) : Option AudioBuffer × AudioModule :=
  (m.buff, { m with buff := none })

/-- AudioModule::set_forward (audio_module.cpp): sets the forward pointer. -/
def AudioModule.set_forward (m : AudioModule) (tgt : Nat) : AudioModule :=
  { m with forward := some tgt }

/-- AudioModule::set_chain_info: installs a chain descriptor reference. -/
def AudioModule.set_chain_info (m : AudioModule) (c : Nat) : AudioModule :=
  { m with chain := c }

/-- AudioModule::bind (audio_module.cpp): this.backward = mod;
mod.set_forward(this); mod.set_chain_info(this.chain); return mod. The
result is the pair of updated modules together with the returned identity. -/
def AudioModule.bind (a b : AudioModule) : AudioModule × AudioModule × Nat :=
  let a2 := { a with backward := some b.id }
  let b2 := (b.set_forward a.id).set_chain_info a.chain
  (a2, b2, b.id)

/-- SineOscillator state (fund_oscillator.cpp): the running phase, the
descriptor info and the held block. The frequency and sample-rate fields do
not affect the dimension claims and are carried abstractly inside the wave
function below. -/
structure SineOscillator where
  phase : Nat
  info : ModuleInfo
  buff : Option AudioBuffer
deriving DecidableEq, Repr

/-- SineOscillator::process (fund_oscillator.cpp lines 21-40): set_buffer
(create_buffer()), then fill every cell of the new block with the sine value
at the current phase, incrementing the phase once per cell. The transcendental
evaluation sin(two_pi * frequency * phase / sample_rate) is abstracted as the
function wave of the phase (floating point is out of scope); allocation and
sizing are exact. -/
def SineOscillator.process (wave : Nat → Sample) (s : SineOscillator) : SineOscillator :=
  let nb := create_buffer_default s.info
  let filled := { nb with data := (List.range nb.size).map (fun i => wave (s.phase + i)) }
  { s with buff := some filled, phase := s.phase + nb.size }

/-- ModuleMixDown state (module_mixer.cpp): the descriptor info, the list of
collected input blocks (buffs) and the held output block. -/
structure MixDownState where
  info : ModuleInfo
  buffs : List AudioBuffer
  buff : Option AudioBuffer
deriving DecidableEq, Repr

/-- The accumulation loop of ModuleMixDown::process (module_mixer.cpp lines
53-64): for i below b.size(), fbuff.at(i) += b.at(i). Written as simultaneous
recursion: cells of fbuff beyond b.size() are untouched, and writes past the
end of fbuff (std::vector::at out of range) lie outside the defined region
and are dropped; the theorems carry equal-size hypotheses, guaranteed in the
code by sizing every block from the shared descriptor. -/
def addInto : List Sample → List Sample → List Sample
  | f, [] => f
  | [], _ => []
  | x :: f, y :: b => (x + y) :: addInto f b

/-- ModuleMixDown::process (module_mixer.cpp lines 45-70): create a fresh
block via create_buffer(), add every collected block into it cell by cell,
and install the result as the held block. Note buffs is not cleared. -/
def MixDownState.process (m : MixDownState) : MixDownState :=
  let fbuff := create_buffer_default m.info
  let fdata := m.buffs.foldl (fun acc b => addInto acc b.data) fbuff.data
  { m with buff := some { fbuff with data := fdata } }

/-- The interface a mixdown input module exposes to ModuleMixDown: its
virtual local processing hook process() and get_buffer(). -/
structure ModuleOps (σ : Type) where
  process : σ → σ
  get_buffer : σ → Option AudioBuffer × σ

/-- A mixdown input module together with the states of the predecessor
modules behind it. The virtual process() call dispatches to the module
itself and operates on its own state (front); only meta_process recurses
into the predecessors (back), and ModuleMixDown::meta_process does not call
it. -/
structure InputChain (σ : Type) where
  front : σ
  back : List σ

/-- The input loop of ModuleMixDown::meta_process (module_mixer.cpp lines
20-30): for each input module, mod.process(); then
buffs.push_back(std::move(mod.get_buffer())). A transferred null pointer
(an input holding no block) would be pushed and dereferenced later, which is
undefined; the model collects only present blocks and the theorems assume
the protocol guarantee that process() leaves a block held. -/
def metaCollect (ops : ModuleOps σ) :
    List (InputChain σ) → List AudioBuffer → List (InputChain σ) × List AudioBuffer
  | [], acc => ([], acc)
  | i :: is, acc =>
    let f1 := ops.process i.front
    let p := ops.get_buffer f1
    let rest := metaCollect ops is (acc ++ p.1.toList)
    ({ front := p.2, back := i.back } :: rest.1, rest.2)

/-- ModuleMixDown::meta_process (module_mixer.cpp lines 16-36): run the local
process() of each registered input, collect the resulting blocks into buffs,
then run our own process(). -/
def mixdownMetaProcess (ops : ModuleOps σ) (ins : List (InputChain σ))
    (m : MixDownState) : List (InputChain σ) × MixDownState :=
  let r := metaCollect ops ins m.buffs
  (r.1, MixDownState.process { m with buffs := r.2 })

/-- A block all whose samples equal v, with the dimensions of the given
descriptor info. -/
def constBlock (info : ModuleInfo) (v : Sample) : AudioBuffer :=
  { frames := info.out_buffer, channels := info.channels,
    data := List.replicate (info.out_buffer * info.channels) v }

/-- ModuleMixUp state (module_mixer.cpp): descriptor info, the list of
forward modules and the retained block. -/
structure MixUpState where
  info : ModuleInfo
  out : List Nat
  buff : Option AudioBuffer
deriving DecidableEq, Repr

/-- std::copy(src.begin(), src.end(), dst.begin()): overwrite the first
src.length cells of dst and keep the rest; writing past the end of dst is
undefined and excluded by the equal-size hypotheses of the theorems. -/
def copyInto (dst src : List Sample) : List Sample :=
  src ++ dst.drop src.length

/-- ModuleMixUp::get_buffer (module_mixer.cpp lines 79-90): create a fresh
block via create_buffer(), copy the retained block into it and return it;
the retained block stays in place. Dereferencing a missing retained block is
undefined; the model returns none there. -/
def MixUpState.get_buffer (s : MixUpState) : Option AudioBuffer × MixUpState :=
  match s.buff with
  | none => (none, s)
  | some b =>
    let t := create_buffer_default s.info
    (some { t with data := copyInto t.data b.data }, s)

/-- Modelled from the spec: the sample clock (chrono.hpp is not in the
sources) converts a sample count to nanoseconds; inc is the nanoseconds per
sample derived from the sample rate. -/
def sampleTime (inc s : Nat) : Int := (s * inc : Nat)

/-- Modelled from the spec: the Step (set-value) segment rule (envelope.hpp
is not in the sources) - value = start_value for t below stop_time, else
stop_value, evaluated independently per sample (spec 4.4). -/
def stepValue (startv stopv : Sample) (stopTime t : Int) : Sample :=
  if t < stopTime then startv else stopv

/-- Modelled from the spec: one SetValue process() call fills a block of n
samples by reading the clock, evaluating the step rule at that time and
advancing the clock by one sample (spec 4.4 sequence behaviour). -/
def setValueBlock (startv stopv : Sample) (stopTime : Int) (clock inc n : Nat) : List Sample :=
  (List.range n).map (fun i => stepValue startv stopv stopTime (sampleTime inc (clock + i)))

/-- Modelled from the spec: an envelope segment (envelope.hpp is not in the
sources) - a stop time in signed nanoseconds, -1 the never-ends sentinel,
and a pure value function of elapsed time. -/
structure EnvSeg where
  stop_time : Int
  value : Int → Sample

/-- A Constant segment: value = start_value for all t (spec 4.4). -/
def constSeg (v : Sample) (stop : Int) : EnvSeg :=
  { stop_time := stop, value := fun _ => v }

/-- Modelled from the spec: the chain envelope (envelope.hpp is not in the
sources) - an ordered segment list, a forward-only cursor, and the shared
sample clock with its nanoseconds-per-sample increment. -/
structure ChainEnv where
  segs : List EnvSeg
  cur : Nat
  clock : Nat
  inc : Nat

/-- One sample of the sequence behaviour (spec 4.4): read the clock, evaluate
the current segment at that time, advance the clock one sample; if the
advanced time reaches or exceeds the stop time of the current segment, the
segment is not the sentinel, and a next segment exists, move the cursor. -/
def ChainEnv.step (s : ChainEnv) : Sample × ChainEnv :=
  let seg := s.segs.getD s.cur (constSeg 0 (-1))
  let v := seg.value (sampleTime s.inc s.clock)
  let clock2 := s.clock + 1
  let cur2 :=
    if seg.stop_time ≠ -1 ∧ seg.stop_time ≤ sampleTime s.inc clock2 ∧
        s.cur + 1 < s.segs.length
    then s.cur + 1 else s.cur
  (v, { s with clock := clock2, cur := cur2 })

/-- Fill m samples; one process() call fills one block worth. -/
def ChainEnv.fill : Nat → ChainEnv → List Sample × ChainEnv
  | 0, s => ([], s)
  | m + 1, s =>
    let p := s.step
    let r := ChainEnv.fill m p.2
    (p.1 :: r.1, r.2)

/-- The three Constant segments of the chain-sequence claim, with values 5,
20 and 30 and boundaries on multiples of the block size B. -/
def threeConst (inc B : Nat) : List EnvSeg :=
  [constSeg 5 (sampleTime inc B), constSeg 20 (sampleTime inc (2 * B)),
    constSeg 30 (sampleTime inc (3 * B))]

/-- The value reported by the k-th of the three constant segments. -/
def threeVals (j : Nat) : Sample :=
  if j = 0 then 5 else if j = 1 then 20 else 30

/-- A chain envelope holding the three constant segments, started at sample
zero with the cursor on the first segment. -/
def threeChain (inc B : Nat) : ChainEnv :=
  { segs := threeConst inc B, cur := 0, clock := 0, inc := inc }

/-- LatencyModule and Counter state (meta_audio.hpp): the number of times
processed and the two accumulators summed over operations. -/
structure LatencyState where
  m_processed : Int
  total_operation_time : Int
  total_operation_latency : Int
deriving DecidableEq, Repr

/-- Counter::processed (meta_audio.hpp line 60). -/
def LatencyState.processed (s : LatencyState) : Int := s.m_processed

/-- LatencyModule::average_time (meta_audio.hpp line 217):
total_operation_time / processed(), with no guard; the division-by-zero case
(undefined behaviour in C++) is exposed as none, and Int.tdiv matches the
truncating C++ integer division elsewhere. -/
def LatencyState.average_time (s : LatencyState) : Option Int :=
  if s.processed = 0 then none
  else some (Int.tdiv s.total_operation_time s.processed)

/-- LatencyModule::average_latency (meta_audio.hpp line 227):
total_operation_latency / processed(), with no guard. -/
def LatencyState.average_latency (s : LatencyState) : Option Int :=
  if s.processed = 0 then none
  else some (Int.tdiv s.total_operation_latency s.processed)

/-- Modelled from the spec: LatencyModule::meta_process (the meta_audio.cpp
body is not in the sources) performs its timekeeping for one completed
operation: it counts one more processed cycle and adds the measured
operation time and latency to the accumulators (meta_audio.hpp doc). -/
def LatencyState.meta_process (opTime opLat : Int) (s : LatencyState) : LatencyState :=
  { m_processed := s.m_processed + 1,
    total_operation_time := s.total_operation_time + opTime,
    total_operation_latency := s.total_operation_latency + opLat }

/-- LatencyModule::reset clears the counters. -/
def LatencyState.reset : LatencyState :=
  { m_processed := 0, total_operation_time := 0, total_operation_latency := 0 }

/-- Concrete input-module operations for the retention evaluation: a source
that, each cycle, leaves a one-cell block holding 1. -/
def oneOps : ModuleOps Unit :=
  { process := fun s => s,
    get_buffer := fun s => (some { frames := 1, channels := 1, data := [1] }, s) }

/-- A fresh one-cell mixdown for the retention evaluation. -/
def oneMix : MixDownState :=
  { info := { out_buffer := 1, channels := 1 }, buffs := [], buff := none }

/-! Helper lemmas about the accumulation loop and the collection loop. -/

lemma addInto_length (f : List Sample) : ∀ b, (addInto f b).length = f.length := by
  induction f with
  | nil => intro b; cases b <;> simp [addInto]
  | cons x f ih =>
    intro b
    cases b with
    | nil => simp [addInto]
    | cons y b => simp [addInto, ih]

lemma addInto_replicate (n : Nat) (x y : Sample) :
    addInto (List.replicate n x) (List.replicate n y) = List.replicate n (x + y) := by
  induction n with
  | zero => rfl
  | succ n ih => simp [List.replicate_succ, addInto, ih]

lemma foldl_addInto_length (bs : List AudioBuffer) (f : List Sample) :
    (bs.foldl (fun acc b => addInto acc b.data) f).length = f.length := by
  induction bs generalizing f with
  | nil => rfl
  | cons b bs ih => rw [List.foldl_cons, ih, addInto_length]

lemma foldl_addInto_const (L : Nat) (v : Sample) (bs : List AudioBuffer)
    (hbs : ∀ b ∈ bs, b.data = List.replicate L v) :
    ∀ x : Sample, bs.foldl (fun acc b => addInto acc b.data) (List.replicate L x)
      = List.replicate L (x + bs.length * v) := by
  induction bs with
  | nil => intro x; simp
  | cons b bs ih =>
    intro x
    rw [List.foldl_cons, hbs b (by simp), addInto_replicate]
    rw [ih (fun b2 hb2 => hbs b2 (by simp [hb2])) (x + v)]
    congr 1
    rw [List.length_cons]
    push_cast
    ring

lemma metaCollect_back (ops : ModuleOps σ) (ins : List (InputChain σ)) :
    ∀ acc, (metaCollect ops ins acc).1.map InputChain.back = ins.map InputChain.back := by
  induction ins with
  | nil => intro acc; rfl
  | cons i is ih => intro acc; simp [metaCollect, ih]

lemma metaCollect_buffs_const (ops : ModuleOps σ) (c : AudioBuffer) :
    ∀ (ins : List (InputChain σ)) (acc : List AudioBuffer),
      (∀ i ∈ ins, (ops.get_buffer (ops.process i.front)).1 = some c) →
      (metaCollect ops ins acc).2 = acc ++ List.replicate ins.length c := by
  intro ins
  induction ins with
  | nil => intro acc _; simp [metaCollect]
  | cons i is ih =>
    intro acc h
    have hi := h i (by simp)
    simp only [metaCollect]
    rw [hi]
    simp only [Option.toList_some]
    rw [ih (acc ++ [c]) (fun i2 hi2 => h i2 (by simp [hi2]))]
    simp [List.replicate_succ]

lemma mixdown_const_output (ops : ModuleOps σ) (ins : List (InputChain σ))
    (m : MixDownState) (v : Sample) (hfresh : m.buffs = [])
    (hin : ∀ i ∈ ins, (ops.get_buffer (ops.process i.front)).1 = some (constBlock m.info v)) :
    (mixdownMetaProcess ops ins m).2.buff = some
      { frames := m.info.out_buffer, channels := m.info.channels,
        data := List.replicate (m.info.out_buffer * m.info.channels)
          ((ins.length : Sample) * v) } := by
  have hcoll := metaCollect_buffs_const ops (constBlock m.info v) ins m.buffs hin
  rw [hfresh] at hcoll
  simp only [mixdownMetaProcess, MixDownState.process, create_buffer_default,
    create_buffer, AudioBuffer.make, hfresh, hcoll, List.nil_append]
  rw [foldl_addInto_const (m.info.out_buffer * m.info.channels) v
    (List.replicate ins.length (constBlock m.info v))
    (by intro b hb; rw [List.eq_of_mem_replicate hb]; rfl) 0]
  simp

/-! Helper lemmas about the latency counters. -/

lemma latency_fold_processed (ops : List (Int × Int)) :
    ∀ s : LatencyState,
      (ops.foldl (fun t p => t.meta_process p.1 p.2) s).processed
        = s.processed + ops.length := by
  induction ops with
  | nil => intro s; simp [LatencyState.processed]
  | cons p ops ih =>
    intro s
    rw [List.foldl_cons, ih]
    simp [LatencyState.processed, LatencyState.meta_process]
    ring

/-! The claim theorems. -/

/-- C1: every process() of the embedded modules yields an output block whose
channel count and frame count are exactly those of the module descriptor
info at the time of the call: the sine oscillator allocates its output via
create_buffer(), sized from the descriptor, as does the mixdown. -/
theorem C1_process_output_dimensions (wave : Nat → Sample) (s : SineOscillator)
    (m : MixDownState) :
    (∃ b, (SineOscillator.process wave s).buff = some b ∧
      b.frames = s.info.out_buffer ∧ b.channels = s.info.channels ∧
      b.size = s.info.out_buffer * s.info.channels) ∧
    (∃ b, (MixDownState.process m).buff = some b ∧
      b.frames = m.info.out_buffer ∧ b.channels = m.info.channels ∧
      b.size = m.info.out_buffer * m.info.channels) := by
  constructor
  · refine ⟨_, rfl, rfl, rfl, ?_⟩
    simp [SineOscillator.process, AudioBuffer.size, create_buffer_default,
      create_buffer, AudioBuffer.make]
  · refine ⟨_, rfl, rfl, rfl, ?_⟩
    simp [MixDownState.process, AudioBuffer.size, foldl_addInto_length,
      create_buffer_default, create_buffer, AudioBuffer.make]

/-- C2: a mixdown cycle over N inputs, each producing a block all of whose
samples equal v with the descriptor dimensions, outputs a block all of whose
samples equal N times v, and the output is unchanged under any permutation
of the input order. -/
theorem C2_mixdown_sum (ops : ModuleOps σ) (ins : List (InputChain σ))
    (m : MixDownState) (v : Sample) (hfresh : m.buffs = [])
    (hin : ∀ i ∈ ins, (ops.get_buffer (ops.process i.front)).1 = some (constBlock m.info v)) :
    (∃ b, (mixdownMetaProcess ops ins m).2.buff = some b ∧
      b.data = List.replicate (m.info.out_buffer * m.info.channels)
        ((ins.length : Sample) * v)) ∧
    (∀ ins2 : List (InputChain σ), ins2.Perm ins →
      (mixdownMetaProcess ops ins2 m).2.buff
        = (mixdownMetaProcess ops ins m).2.buff) := by
  constructor
  · exact ⟨_, mixdown_const_output ops ins m v hfresh hin, rfl⟩
  · intro ins2 hperm
    rw [mixdown_const_output ops ins m v hfresh hin,
      mixdown_const_output ops ins2 m v hfresh
        (fun i hi => hin i (hperm.mem_iff.1 hi))]
    rw [hperm.length_eq]

/-- C2 witness: two one-cell inputs each producing the block holding 1 sum
to the block holding 2, independently of input order. -/
theorem C2_mixdown_sum_witness :
    (∃ b, (mixdownMetaProcess oneOps [⟨(), []⟩, ⟨(), []⟩] oneMix).2.buff = some b ∧
      b.data = List.replicate (oneMix.info.out_buffer * oneMix.info.channels)
        ((([⟨(), []⟩, ⟨(), []⟩] : List (InputChain Unit)).length : Sample) * 1)) ∧
    (∀ ins2 : List (InputChain Unit), ins2.Perm [⟨(), []⟩, ⟨(), []⟩] →
      (mixdownMetaProcess oneOps ins2 oneMix).2.buff
        = (mixdownMetaProcess oneOps [⟨(), []⟩, ⟨(), []⟩] oneMix).2.buff) :=
  C2_mixdown_sum oneOps [⟨(), []⟩, ⟨(), []⟩] oneMix 1 rfl (fun _ _ => rfl)

/-- C3: evaluation of the code at the failing input. The claim says collected
blocks are cycle-scoped, but ModuleMixDown never clears buffs: with one
input producing the one-cell block holding 1 each cycle, the first cycle
outputs [1], while the second cycle still holds the first collected block,
sums two blocks, and outputs [2] instead of [1]. -/
theorem C3_collected_blocks_retained :
    ((mixdownMetaProcess oneOps [⟨(), []⟩] oneMix).2.buff
      = some { frames := 1, channels := 1, data := [1] }) ∧
    ((mixdownMetaProcess oneOps (mixdownMetaProcess oneOps [⟨(), []⟩] oneMix).1
        (mixdownMetaProcess oneOps [⟨(), []⟩] oneMix).2).2.buff
      = some { frames := 1, channels := 1, data := [2] }) ∧
    ((mixdownMetaProcess oneOps (mixdownMetaProcess oneOps [⟨(), []⟩] oneMix).1
        (mixdownMetaProcess oneOps [⟨(), []⟩] oneMix).2).2.buffs.length = 2) := by
  refine ⟨?_, ?_, ?_⟩
  · simp [mixdownMetaProcess, metaCollect, MixDownState.process, oneOps, oneMix,
      addInto, create_buffer_default, create_buffer, AudioBuffer.make]
  · simp [mixdownMetaProcess, metaCollect, MixDownState.process, oneOps, oneMix,
      addInto, create_buffer_default, create_buffer, AudioBuffer.make]
    norm_num
  · simp [mixdownMetaProcess, metaCollect, MixDownState.process, oneOps, oneMix,
      addInto, create_buffer_default, create_buffer, AudioBuffer.make]

/-- C4: ModuleMixUp::get_buffer returns a fresh block whose contents equal
the retained block, leaves the retained block in place, and a second call
returns the same contents again; the returned blocks are separate values,
so changing one cannot change the other or the retained original. -/
theorem C4_mixup_copy (s : MixUpState) (b : AudioBuffer) (hb : s.buff = some b)
    (hlen : b.data.length = s.info.out_buffer * s.info.channels) :
    (∃ t, (s.get_buffer).1 = some t ∧ t.data = b.data ∧
      t.frames = s.info.out_buffer ∧ t.channels = s.info.channels) ∧
    (s.get_buffer).2 = s ∧
    ((s.get_buffer).2.get_buffer).1 = (s.get_buffer).1 ∧
    (s.get_buffer).2.buff = some b := by
  have key : s.get_buffer
      = (some (AudioBuffer.mk s.info.out_buffer s.info.channels b.data), s) := by
    unfold MixUpState.get_buffer
    rw [hb]
    simp [copyInto, create_buffer_default, create_buffer, AudioBuffer.make, hlen]
  rw [key]
  exact ⟨⟨_, rfl, rfl, rfl, rfl⟩, rfl, by rw [key], hb⟩

/-- C4 witness at a concrete two-cell mix-up. -/
theorem C4_mixup_copy_witness :
    (∃ t, (MixUpState.get_buffer
        { info := { out_buffer := 2, channels := 1 }, out := [],
          buff := some { frames := 2, channels := 1, data := [3, 4] } }).1 = some t ∧
      t.data = ({ frames := 2, channels := 1, data := [3, 4] } : AudioBuffer).data ∧
      t.frames = 2 ∧ t.channels = 1) ∧
    (MixUpState.get_buffer
        { info := { out_buffer := 2, channels := 1 }, out := [],
          buff := some { frames := 2, channels := 1, data := [3, 4] } }).2
      = { info := { out_buffer := 2, channels := 1 }, out := [],
          buff := some { frames := 2, channels := 1, data := [3, 4] } } ∧
    ((MixUpState.get_buffer
        { info := { out_buffer := 2, channels := 1 }, out := [],
          buff := some { frames := 2, channels := 1, data := [3, 4] } }).2.get_buffer).1
      = (MixUpState.get_buffer
        { info := { out_buffer := 2, channels := 1 }, out := [],
          buff := some { frames := 2, channels := 1, data := [3, 4] } }).1 ∧
    (MixUpState.get_buffer
        { info := { out_buffer := 2, channels := 1 }, out := [],
          buff := some { frames := 2, channels := 1, data := [3, 4] } }).2.buff
      = some { frames := 2, channels := 1, data := [3, 4] } :=
  C4_mixup_copy _ { frames := 2, channels := 1, data := [3, 4] } rfl rfl

/-- C5: get_buffer returns the held block and leaves the module holding
none, a second take before any set returns nothing, and set_buffer installs
the given block as the held block. -/
theorem C5_block_transfer (m : AudioModule) (b : AudioBuffer) :
    (m.get_buffer).1 = m.buff ∧
    ((m.get_buffer).2).buff = none ∧
    (((m.get_buffer).2).get_buffer).1 = none ∧
    (m.set_buffer b).buff = some b :=
  ⟨rfl, rfl, rfl, rfl⟩

/-- C6: ModuleMixDown::meta_process runs only the local process() of each
input module, so the predecessor chain behind every input is unchanged by
the mixdown cycle. -/
theorem C6_mixdown_inputs_local_only (ops : ModuleOps σ)
    (ins : List (InputChain σ)) (m : MixDownState) :
    ((mixdownMetaProcess ops ins m).1).map InputChain.back
      = ins.map InputChain.back :=
  metaCollect_back ops ins m.buffs

/-- C9: bind(a, b) makes b the backward link of a, sets the forward pointer
of b to a, installs the chain descriptor reference of a into b, and returns
b. -/
theorem C9_bind_links (a b : AudioModule) :
    (AudioModule.bind a b).1.backward = some b.id ∧
    (AudioModule.bind a b).2.1.forward = some a.id ∧
    (AudioModule.bind a b).2.1.chain = a.chain ∧
    (AudioModule.bind a b).2.2 = b.id :=
  ⟨rfl, rfl, rfl, rfl⟩

/-- C10: average_time() and average_latency() divide by processed() with no
guard: they are defined exactly when processed() is nonzero; at reset both
hit the division-by-zero branch, and after n completed meta_process() calls
the counter equals n, so the branch is unreachable exactly when at least one
cycle has completed. -/
theorem C10_latency_average_guard (s : LatencyState) (ops : List (Int × Int)) :
    ((s.average_time).isSome ↔ s.processed ≠ 0) ∧
    ((s.average_latency).isSome ↔ s.processed ≠ 0) ∧
    LatencyState.reset.average_time = none ∧
    LatencyState.reset.average_latency = none ∧
    (ops.foldl (fun t p => t.meta_process p.1 p.2) LatencyState.reset).processed
      = ops.length := by
  refine ⟨?_, ?_, rfl, rfl, ?_⟩
  · by_cases h : s.processed = 0 <;> simp [LatencyState.average_time, h]
  · by_cases h : s.processed = 0 <;> simp [LatencyState.average_latency, h]
  · rw [latency_fold_processed]
    simp [LatencyState.reset, LatencyState.processed]

/-- C7: a Step (set-value) envelope whose stop time corresponds to sample
index k within a block of N frames yields start_value on [0,k) and
stop_value on [k,N), each sample evaluated independently. -/
theorem C7_step_envelope (sv pv : Sample) (T : Int) (inc n k : Nat)
    (hk : ∀ i, i < n → (i < k ↔ sampleTime inc i < T)) :
    ∀ i, i < n →
      (setValueBlock sv pv T 0 inc n).getD i 0 = if i < k then sv else pv := by
  intro i hi
  have hlen : (setValueBlock sv pv T 0 inc n).length = n := by
    simp [setValueBlock]
  rw [List.getD_eq_getElem _ _ (by rw [hlen]; exact hi)]
  simp only [setValueBlock, List.getElem_map, List.getElem_range, Nat.zero_add]
  by_cases h : i < k
  · rw [if_pos h]
    simp [stepValue, (hk i hi).1 h]
  · rw [if_neg h]
    have hT : ¬ sampleTime inc i < T := fun hc => h ((hk i hi).2 hc)
    simp [stepValue, hT]

/-- C7 witness: at a millisecond clock with stop time 3.5 million
nanoseconds, the switch index is 4 in a block of 10. -/
theorem C7_step_envelope_witness :
    (setValueBlock 0 1 3500000 0 1000000 10).getD 2 0
        = (if 2 < 4 then (0 : Sample) else 1) ∧
    (setValueBlock 0 1 3500000 0 1000000 10).getD 7 0
        = (if 7 < 4 then (0 : Sample) else 1) :=
  ⟨C7_step_envelope 0 1 3500000 1000000 10 4 (by decide) 2 (by decide),
   C7_step_envelope 0 1 3500000 1000000 10 4 (by decide) 7 (by decide)⟩

/-! Helper lemmas for the chain envelope. -/

lemma sampleTime_le_iff (inc : Nat) (hinc : 0 < inc) (a b : Nat) :
    sampleTime inc a ≤ sampleTime inc b ↔ a ≤ b := by
  unfold sampleTime
  rw [Nat.cast_le]
  exact mul_le_mul_right hinc

lemma sampleTime_ne_neg_one (inc a : Nat) : sampleTime inc a ≠ -1 := by
  unfold sampleTime
  omega

/-- One step of the three-segment chain from a state sitting q samples into
segment j: it emits the value of segment j, advances the clock, and moves
the cursor exactly when the advanced clock reaches the block boundary and a
next segment exists. -/
lemma chainStep_at (inc B j q : Nat) (hinc : 0 < inc) (hj : j ≤ 2) (hq : q < B)
    (s : ChainEnv) (hsegs : s.segs = threeConst inc B) (hi : s.inc = inc)
    (hck : s.clock = j * B + q) (hcur : s.cur = j) :
    s.step = (threeVals j,
      { s with clock := j * B + q + 1,
               cur := if q + 1 = B ∧ j + 1 < 3 then j + 1 else j }) := by
  obtain ⟨segs0, cur0, clock0, inc0⟩ := s
  simp only at hsegs hi hck hcur
  subst hsegs hck
  rw [hi, hcur]
  interval_cases j <;>
    simp only [ChainEnv.step, threeConst, threeVals, constSeg,
      List.getD_cons_zero, List.getD_cons_succ, List.length_cons,
      List.length_nil, Nat.zero_mul, Nat.zero_add, Nat.one_mul] <;>
    norm_num <;>
    split <;> split <;>
    first
    | rfl
    | (exfalso
       rename_i hL hR
       first
       | (obtain ⟨-, hle⟩ := hL
          rw [sampleTime_le_iff inc hinc] at hle
          exact hR (by omega))
       | exact hL ⟨sampleTime_ne_neg_one inc _, by
           rw [sampleTime_le_iff inc hinc]
           omega⟩)

/-- Filling m plus n samples is filling m, then n from the reached state. -/
lemma fill_add (m n : Nat) : ∀ s : ChainEnv,
    ChainEnv.fill (m + n) s =
      ((ChainEnv.fill m s).1 ++ (ChainEnv.fill n (ChainEnv.fill m s).2).1,
        (ChainEnv.fill n (ChainEnv.fill m s).2).2) := by
  induction m with
  | zero => intro s; simp [ChainEnv.fill]
  | succ m ih =>
    intro s
    have hmn : m + 1 + n = (m + n) + 1 := by omega
    rw [hmn]
    simp only [ChainEnv.fill, ih]
    simp

/-- Filling strictly inside segment j of the three-segment chain: every
sample reports the value of segment j and the cursor does not move. -/
lemma fill_inside (inc B j : Nat) (hinc : 0 < inc) (hj : j ≤ 2) :
    ∀ (m q : Nat) (s : ChainEnv), q + m < B →
    s.segs = threeConst inc B → s.inc = inc →
    s.clock = j * B + q → s.cur = j →
    (ChainEnv.fill m s).1 = List.replicate m (threeVals j) ∧
    (ChainEnv.fill m s).2.segs = threeConst inc B ∧
    (ChainEnv.fill m s).2.inc = inc ∧
    (ChainEnv.fill m s).2.clock = j * B + q + m ∧
    (ChainEnv.fill m s).2.cur = j := by
  intro m
  induction m with
  | zero =>
    intro q s hqm hsegs hi hck hcur
    refine ⟨rfl, ?_, ?_, ?_, ?_⟩ <;> simp [ChainEnv.fill, hsegs, hi, hck, hcur]
  | succ m ih =>
    intro q s hqm hsegs hi hck hcur
    have hstep := chainStep_at inc B j q hinc hj (by omega) s hsegs hi hck hcur
    have hcond : ¬(q + 1 = B ∧ j + 1 < 3) := by omega
    rw [if_neg hcond] at hstep
    have ihs := ih (q + 1)
      { s with clock := j * B + q + 1, cur := j } (by omega)
      (by simpa using hsegs) (by simpa using hi) (by simp; omega) (by simp)
    simp only [ChainEnv.fill, hstep]
    refine ⟨?_, ihs.2.1, ihs.2.2.1, ?_, ihs.2.2.2.2⟩
    · rw [List.replicate_succ]
      simp only [ihs.1]
    · rw [ihs.2.2.2.1]
      omega

/-- Filling one full block of the three-segment chain from a block boundary:
the block is constant at the value of segment j, the clock reaches the next
boundary, and the cursor moves to the next segment when one exists. -/
lemma fill_block (inc B j : Nat) (hB : 0 < B) (hinc : 0 < inc) (hj : j ≤ 2)
    (s : ChainEnv) (hsegs : s.segs = threeConst inc B) (hi : s.inc = inc)
    (hck : s.clock = j * B) (hcur : s.cur = j) :
    (ChainEnv.fill B s).1 = List.replicate B (threeVals j) ∧
    (ChainEnv.fill B s).2.segs = threeConst inc B ∧
    (ChainEnv.fill B s).2.inc = inc ∧
    (ChainEnv.fill B s).2.clock = (j + 1) * B ∧
    (ChainEnv.fill B s).2.cur = min (j + 1) 2 := by
  obtain ⟨B0, rfl⟩ : ∃ B0, B = B0 + 1 := ⟨B - 1, by omega⟩
  obtain ⟨hv, hs1, hi1, hc1, hu1⟩ := fill_inside inc (B0 + 1) j hinc hj B0 0 s
    (by omega) hsegs hi (by omega) hcur
  have hstep := chainStep_at inc (B0 + 1) j B0 hinc hj (by omega)
    (ChainEnv.fill B0 s).2 hs1 hi1 (by rw [hc1]; omega) hu1
  rw [fill_add B0 1 s]
  simp only [ChainEnv.fill, hstep]
  refine ⟨?_, hs1, hi1, ?_, ?_⟩
  · rw [hv, ← List.replicate_succ']
  · ring
  · split
    · rename_i hcc
      omega
    · rename_i hcc
      have hge : ¬(j + 1 < 3) := fun h => hcc ⟨by trivial, h⟩
      omega

/-- C8: the chain sequence holding three constant segments with values 5, 20
and 30, whose boundaries fall on multiples of the block size B, reports
exactly the values 5, then 20, then 30 - with no interpolation - whether
pulled across three successive process() calls of one block each or within
a single block spanning all three segments. -/
theorem C8_chain_sequence (B inc : Nat) (hB : 0 < B) (hinc : 0 < inc) :
    (ChainEnv.fill B (threeChain inc B)).1 = List.replicate B 5 ∧
    (ChainEnv.fill B (ChainEnv.fill B (threeChain inc B)).2).1
      = List.replicate B 20 ∧
    (ChainEnv.fill B
        (ChainEnv.fill B (ChainEnv.fill B (threeChain inc B)).2).2).1
      = List.replicate B 30 ∧
    (ChainEnv.fill (3 * B) (threeChain inc B)).1
      = List.replicate B 5 ++ List.replicate B 20 ++ List.replicate B 30 := by
  obtain ⟨hv0, hs0, hi0, hc0, hu0⟩ := fill_block inc B 0 hB hinc (by omega)
    (threeChain inc B) rfl rfl (by simp [threeChain]) rfl
  obtain ⟨hv1, hs1, hi1, hc1, hu1⟩ := fill_block inc B 1 hB hinc (by omega)
    (ChainEnv.fill B (threeChain inc B)).2
    hs0 hi0 (by rw [hc0]) (by rw [hu0]; omega)
  obtain ⟨hv2, hs2, hi2, hc2, hu2⟩ := fill_block inc B 2 hB hinc (by omega)
    (ChainEnv.fill B (ChainEnv.fill B (threeChain inc B)).2).2
    hs1 hi1 (by rw [hc1]) (by rw [hu1]; omega)
  refine ⟨hv0, hv1, hv2, ?_⟩
  have h3 : 3 * B = B + (B + B) := by ring
  rw [h3, fill_add B (B + B) (threeChain inc B), fill_add B B]
  rw [hv0, hv1, hv2]
  simp [threeVals, List.append_assoc]

/-- C8 witness at block size one and one nanosecond per sample. -/
theorem C8_chain_sequence_witness :
    (ChainEnv.fill 1 (threeChain 1 1)).1 = List.replicate 1 5 ∧
    (ChainEnv.fill 1 (ChainEnv.fill 1 (threeChain 1 1)).2).1
      = List.replicate 1 20 ∧
    (ChainEnv.fill 1
        (ChainEnv.fill 1 (ChainEnv.fill 1 (threeChain 1 1)).2).2).1
      = List.replicate 1 30 ∧
    (ChainEnv.fill (3 * 1) (threeChain 1 1)).1
      = List.replicate 1 5 ++ List.replicate 1 20 ++ List.replicate 1 30 :=
  C8_chain_sequence 1 1 Nat.one_pos Nat.one_pos

end Maec
